import Mathlib

/-!
Verification development for the daily-recycling dashboard core
(`src/app.py`, live code at the bottom of the file).

The tabular data frame is embedded as a `List Row`.  Weights are embedded
as `Option ℚ` (`none` models a missing / NaN weight; exact rationals stand
in for the floating-point arithmetic, so `0.8` is `4/5`, `0.2` is `1/5`).
The loader-derived columns (`Hotel`, `Day of Week`, `Month`, `Week`) are
carried on each row: the source computes them from the date column with
calendar machinery that no claim depends on, so dates are abstract keys
(`Nat`) and the derived fields travel with the row.
-/

set_option maxHeartbeats 1000000

/-- One row of the waste report data frame (columns used by the analysis). -/
structure Row where
  serviceDate : Nat
  hotel : String
  weekday : String
  month : String
  week : Nat
  wasteType : String
  weight : Option ℚ
deriving DecidableEq, Repr

/-- Pandas-style `.unique()`: distinct values in first-encountered order.
Structural recursion on the remaining list, carrying the set of seen values. -/
def uniqAux {α : Type} [DecidableEq α] : List α → List α → List α
  | _, [] => []
  | seen, x :: xs => if x ∈ seen then uniqAux seen xs else x :: uniqAux (x :: seen) xs

def uniq {α : Type} [DecidableEq α] (l : List α) : List α := uniqAux [] l

/-- Weight of a row as summed by `pandas` `.sum()` (NaN contributes 0). -/
def weightOf (r : Row) : ℚ := r.weight.getD 0

/-- The mask `subset_df['WEIGHT (TONNES)'].notna() & (subset_df['WEIGHT (TONNES)'] > 0)`. -/
def validWeight (r : Row) : Bool :=
  match r.weight with
  | some w => decide (0 < w)
  | none => false

/-- Sum of the `'WEIGHT (TONNES)'` column of a frame. -/
def colSum (l : List Row) : ℚ := (l.map weightOf).sum

/-- The recyclable waste-type labels: `['Mixed Recycling', 'Glass', 'Cardboard']`. -/
def recyclableTypes : List String := ["Mixed Recycling", "Glass", "Cardboard"]

/-- Recyclable sum: `subset_df[subset_df['WASTE TYPE'].isin([...])]['WEIGHT (TONNES)'].sum()`. -/
def recyclableSum (l : List Row) : ℚ :=
  colSum (l.filter (fun r => decide (r.wasteType ∈ recyclableTypes)))

/-- General sum: `subset_df[subset_df['WASTE TYPE'] == 'General Waste']['WEIGHT (TONNES)'].sum()`. -/
def generalSum (l : List Row) : ℚ :=
  colSum (l.filter (fun r => decide (r.wasteType = "General Waste")))

/-- Food sum: `subset_df[subset_df['WASTE TYPE'] == 'Food Waste']['WEIGHT (TONNES)'].sum()`. -/
def foodSum (l : List Row) : ℚ :=
  colSum (l.filter (fun r => decide (r.wasteType = "Food Waste")))

/-- The function `calculate_recycling_rate(subset_df)`: returns
`(recycling_rate, food, total_waste)` exactly as the source does. -/
def calculate_recycling_rate (subset : List Row) : ℚ × ℚ × ℚ :=
  let sub := subset.filter validWeight
  let recyclable := recyclableSum sub
  let general := generalSum sub
  let food := foodSum sub
  let total_waste := recyclable + general + food
  (if 0 < total_waste then recyclable / total_waste * 100 else 0, food, total_waste)

/-- The static postcode-to-hotel mapping of `get_hotel_name`. -/
def hotelMapping : List (String × String) :=
  [("EC3N 1AX", "Canopy"), ("SW1V 1QF", "CIV"), ("W2 1EG", "CIE"),
   ("NW1 7BY", "Camden"), ("SW1V 1RG", "EH"), ("NW1 6UB", "Head Office")]

/-- The function `get_hotel_name(postcode)`: `mapping.get(postcode, 'Unknown')`. -/
def get_hotel_name (postcode : String) : String :=
  match hotelMapping.lookup postcode with
  | some v => v
  | none => "Unknown"

/-- One row of the `day_rates` table (`Day of Week`, `Recycling Rate`,
`Food Waste`, `Total Waste`). -/
structure DayRate where
  day : String
  rate : ℚ
  food : ℚ
  total : ℚ
deriving DecidableEq, Repr

/-- One row of the `monthly_rates` table. -/
structure MonthRate where
  month : String
  rate : ℚ
  food : ℚ
  total : ℚ
deriving DecidableEq, Repr

/-- One row of the per-date `daily_df` trend table (`date`, `recycling_rate`,
`recyclable`, `general`, `food_waste`, `total_waste`). -/
structure DateRow where
  date : Nat
  recycling_rate : ℚ
  recyclable : ℚ
  general : ℚ
  food_waste : ℚ
  total_waste : ℚ
deriving DecidableEq, Repr

/-- One row of the `weekly_daily_df` table. -/
structure WeekDayRate where
  week : Nat
  weekStart : Nat
  day : String
  rate : ℚ
  food : ℚ
  total : ℚ
deriving DecidableEq, Repr

/-- Result type of `best_day` / `worst_day`: either a row of `day_rates`, or the sentinel
dict `{'Day of Week': 'No Data', 'Recycling Rate': 0}`. -/
inductive BW where
  | row (d : DayRate)
  | noData
deriving DecidableEq, Repr

/-- The `['Day of Week']` access on `best_day`/`worst_day`
(the sentinel dict holds `'No Data'`). -/
def BW.dayName : BW → String
  | .row d => d.day
  | .noData => "No Data"

/-- The `['Recycling Rate']` access on `best_day`/`worst_day`
(the sentinel dict holds `0`). -/
def BW.rateVal : BW → ℚ
  | .row d => d.rate
  | .noData => 0

/-- An entry of the `insights` list.  The formatted message strings are
abstracted to their data: a warning carries the weekday and its rate, the
info insight carries the average daily food waste. -/
inductive Insight where
  | warning (day : String) (rate : ℚ)
  | info (avgFood : ℚ)
deriving DecidableEq, Repr

/-- Everything `analyze_recycling` returns. -/
structure AnalyzeResult where
  daily_df : List DateRow
  overall_rate : ℚ
  best_day : BW
  worst_day : BW
  insights : List Insight
  day_rates : List DayRate
  monthly_rates : List MonthRate
  total_food : ℚ
  total_waste : ℚ
  weekly_daily_df : List WeekDayRate
deriving DecidableEq

/-- The frame `analyze_recycling` works on after its first two statements:
the optional hotel filter (`if selected_hotel and selected_hotel != 'All
Hotels'` — Python truthiness makes `None` and `''` skip the filter)
followed by the valid-weight mask. -/
def filteredDF (df : List Row) (selected_hotel : Option String) : List Row :=
  let df1 := match selected_hotel with
    | none => df
    | some h =>
        if h ≠ "" ∧ h ≠ "All Hotels" then df.filter (fun r => decide (r.hotel = h)) else df
  df1.filter validWeight

/-- The `groupby(['SERVICE DATE', 'WASTE TYPE'])` key of a row. -/
def keyOf (r : Row) : Nat × String := (r.serviceDate, r.wasteType)

/-- The table `daily_data = df.groupby(['SERVICE DATE','WASTE TYPE'])['WEIGHT (TONNES)'].sum()`:
one entry per distinct key, carrying the summed weight of its group. -/
def daily_data_of (F : List Row) : List ((Nat × String) × ℚ) :=
  (uniq (F.map keyOf)).map (fun k => (k, colSum (F.filter (fun r => decide (keyOf r = k)))))

/-- The list `dates = daily_data['SERVICE DATE'].unique()`. -/
def dates_of (F : List Row) : List Nat :=
  uniq ((daily_data_of F).map (fun e => e.1.1))

/-- The slice `day_data = daily_data[daily_data['SERVICE DATE'] == date]`. -/
def dayGroup (F : List Row) (d : Nat) : List ((Nat × String) × ℚ) :=
  (daily_data_of F).filter (fun e => decide (e.1.1 = d))

/-- Recyclable weight of one date in the daily analysis. -/
def dayRec (F : List Row) (d : Nat) : ℚ :=
  (((dayGroup F d).filter (fun e => decide (e.1.2 ∈ recyclableTypes))).map (fun e => e.2)).sum

/-- General-waste weight of one date in the daily analysis. -/
def dayGen (F : List Row) (d : Nat) : ℚ :=
  (((dayGroup F d).filter (fun e => decide (e.1.2 = "General Waste"))).map (fun e => e.2)).sum

/-- Food-waste weight of one date in the daily analysis. -/
def dayFood (F : List Row) (d : Nat) : ℚ :=
  (((dayGroup F d).filter (fun e => decide (e.1.2 = "Food Waste"))).map (fun e => e.2)).sum

/-- Per-date `total = recyclable + general + food`. -/
def dayTotal (F : List Row) (d : Nat) : ℚ := dayRec F d + dayGen F d + dayFood F d

/-- The (zero- or one-element) contribution of one date to `recycling_rates`:
appended only when `total > 0`. -/
def dateRowsFor (F : List Row) (d : Nat) : List DateRow :=
  if 0 < dayTotal F d then
    [⟨d, dayRec F d / dayTotal F d * 100, dayRec F d, dayGen F d, dayFood F d, dayTotal F d⟩]
  else []

/-- The table `daily_df`: the per-date composition table, one row per date whose
recognized-category total is positive. -/
def daily_df_of (df : List Row) (selected_hotel : Option String) : List DateRow :=
  (dates_of (filteredDF df selected_hotel)).flatMap (dateRowsFor (filteredDF df selected_hotel))

/-- The `day_rates` rows before the `Total Waste > 0` filter: one row per
weekday in first-encountered order, via `calculate_recycling_rate`. -/
def day_rates_raw (F : List Row) : List DayRate :=
  (uniq (F.map Row.weekday)).map (fun day =>
    let t := calculate_recycling_rate (F.filter (fun r => decide (r.weekday = day)))
    ⟨day, t.1, t.2.1, t.2.2⟩)

/-- The table `day_rates = day_rates[day_rates['Total Waste'] > 0]`. -/
def day_rates_of (df : List Row) (selected_hotel : Option String) : List DayRate :=
  (day_rates_raw (filteredDF df selected_hotel)).filter (fun d => decide (0 < d.total))

/-- Champion scan of `day_rates['Recycling Rate'].idxmax()` then `.loc`: the first row
achieving the maximum rate (a later row replaces the champion only when
strictly greater). -/
def pickBest : DayRate → List DayRate → DayRate
  | m, [] => m
  | m, d :: ds => pickBest (if m.rate < d.rate then d else m) ds

/-- Counterpart of `idxmin`: first row achieving the minimum rate. -/
def pickWorst : DayRate → List DayRate → DayRate
  | m, [] => m
  | m, d :: ds => pickWorst (if d.rate < m.rate then d else m) ds

/-- The value `best_day`: the `idxmax` row when `day_rates` is nonempty, else the sentinel. -/
def best_day_of (df : List Row) (selected_hotel : Option String) : BW :=
  match day_rates_of df selected_hotel with
  | [] => BW.noData
  | h :: t => BW.row (pickBest h t)

/-- The value `worst_day`: the `idxmin` row when `day_rates` is nonempty, else the sentinel. -/
def worst_day_of (df : List Row) (selected_hotel : Option String) : BW :=
  match day_rates_of df selected_hotel with
  | [] => BW.noData
  | h :: t => BW.row (pickWorst h t)

/-- The mean `day_rates['Recycling Rate'].mean()`: the unweighted mean of the rates. -/
def avgRate (l : List DayRate) : ℚ := (l.map DayRate.rate).sum / (l.length : ℚ)

/-- The warning insights: when `day_rates` is nonempty, one warning per row
of `low_days = day_rates[day_rates['Recycling Rate'] < avg_rate * 0.8]`. -/
def warning_insights_of (df : List Row) (selected_hotel : Option String) : List Insight :=
  if (day_rates_of df selected_hotel).isEmpty then []
  else
    ((day_rates_of df selected_hotel).filter
        (fun d => decide (d.rate < avgRate (day_rates_of df selected_hotel) * (4 / 5)))).map
      (fun d => Insight.warning d.day d.rate)

/-- The value `avg_food_per_day = total_food / len(daily_df) if not daily_df.empty else 0`. -/
def avg_food_per_day_of (df : List Row) (selected_hotel : Option String) : ℚ :=
  if (daily_df_of df selected_hotel).isEmpty then 0
  else
    (calculate_recycling_rate (filteredDF df selected_hotel)).2.1 /
      ((daily_df_of df selected_hotel).length : ℚ)

/-- The full `insights` list: warnings, then the food-waste info insight
appended when `avg_food_per_day > 0.2`. -/
def insights_of (df : List Row) (selected_hotel : Option String) : List Insight :=
  if (1 / 5 : ℚ) < avg_food_per_day_of df selected_hotel then
    warning_insights_of df selected_hotel ++ [Insight.info (avg_food_per_day_of df selected_hotel)]
  else warning_insights_of df selected_hotel

/-- The table `monthly_rates`: one row per month in first-encountered order. -/
def monthly_rates_of (df : List Row) (selected_hotel : Option String) : List MonthRate :=
  (uniq ((filteredDF df selected_hotel).map Row.month)).map (fun m =>
    let t := calculate_recycling_rate
      ((filteredDF df selected_hotel).filter (fun r => decide (r.month = m)))
    ⟨m, t.1, t.2.1, t.2.2⟩)

/-- The value `week_data['SERVICE DATE'].min()` (on the abstract date keys). -/
def minDate : List Nat → Nat
  | [] => 0
  | x :: xs => xs.foldl min x

/-- The table `weekly_daily_df`: per ISO week, per weekday rates, annotated with the
week's earliest date. -/
def weekly_daily_of (df : List Row) (selected_hotel : Option String) : List WeekDayRate :=
  (uniq ((filteredDF df selected_hotel).map Row.week)).flatMap (fun w =>
    let week_data := (filteredDF df selected_hotel).filter (fun r => decide (r.week = w))
    let week_start := minDate (week_data.map Row.serviceDate)
    (uniq (week_data.map Row.weekday)).map (fun day =>
      let t := calculate_recycling_rate (week_data.filter (fun r => decide (r.weekday = day)))
      ⟨w, week_start, day, t.1, t.2.1, t.2.2⟩))

/-- The function `analyze_recycling(df, selected_hotel)`: the full return tuple. -/
def analyze_recycling (df : List Row) (selected_hotel : Option String) : AnalyzeResult :=
  { daily_df := daily_df_of df selected_hotel
    overall_rate := (calculate_recycling_rate (filteredDF df selected_hotel)).1
    best_day := best_day_of df selected_hotel
    worst_day := worst_day_of df selected_hotel
    insights := insights_of df selected_hotel
    day_rates := day_rates_of df selected_hotel
    monthly_rates := monthly_rates_of df selected_hotel
    total_food := (calculate_recycling_rate (filteredDF df selected_hotel)).2.1
    total_waste := (calculate_recycling_rate (filteredDF df selected_hotel)).2.2
    weekly_daily_df := weekly_daily_of df selected_hotel }

/-! ## Spec-side helper definitions and observations on the insight list -/

/-- Whether an insight is a `'warning'`-typed entry. -/
def isWarning : Insight → Bool
  | .warning _ _ => true
  | .info _ => false

/-- Whether an insight is the `'info'`-typed food-waste entry. -/
def isInfo : Insight → Bool
  | .warning _ _ => false
  | .info _ => true

/-- The warning entries of an insight list, in order. -/
def warningsOf (l : List Insight) : List Insight := l.filter isWarning

/-- The info entries of an insight list, in order. -/
def infosOf (l : List Insight) : List Insight := l.filter isInfo

/-! ## General lemmas -/

theorem filter_filter_self {α : Type} (p : α → Bool) (l : List α) :
    (l.filter p).filter p = l.filter p := by
  induction l with
  | nil => rfl
  | cons x t ih => cases hx : p x <;> simp [List.filter_cons, hx, ih]

/-! ## Concrete example inputs -/

/-- The spec's §8 example: (Mon, Mixed Recycling, 2.0), (Mon, General Waste,
3.0), (Tue, Food Waste, 1.0), (Tue, Mixed Recycling, 4.0). -/
def exampleRows : List Row :=
  [⟨1, "Canopy", "Monday", "January", 1, "Mixed Recycling", some 2⟩,
   ⟨1, "Canopy", "Monday", "January", 1, "General Waste", some 3⟩,
   ⟨2, "Canopy", "Tuesday", "January", 1, "Food Waste", some 1⟩,
   ⟨2, "Canopy", "Tuesday", "January", 1, "Mixed Recycling", some 4⟩]

/-- A one-row set with positive total. -/
def onePosRow : List Row :=
  [⟨1, "Canopy", "Monday", "January", 1, "Mixed Recycling", some 2⟩]

/-- A row set whose rows all have missing weight: every total is zero. -/
def noWeightRows : List Row :=
  [⟨1, "Canopy", "Monday", "January", 1, "Mixed Recycling", none⟩]

/-! ## C1 -/

/-- C1: for every input row set, `calculate_recycling_rate` returns a summary
in which the total equals recyclable + general + food weight (summed over the
rows with present, strictly positive weight), and the recycling rate equals
recyclable/total×100 when the total is strictly positive and 0 when the total
is 0. -/
theorem C1_rate_summary (rows : List Row) :
    (calculate_recycling_rate rows).2.2 =
      recyclableSum (rows.filter validWeight) + generalSum (rows.filter validWeight) +
        foodSum (rows.filter validWeight) ∧
    (0 < (calculate_recycling_rate rows).2.2 →
      (calculate_recycling_rate rows).1 =
        recyclableSum (rows.filter validWeight) / (calculate_recycling_rate rows).2.2 * 100) ∧
    ((calculate_recycling_rate rows).2.2 = 0 → (calculate_recycling_rate rows).1 = 0) := by
  refine ⟨rfl, fun h => ?_, fun h => ?_⟩
  · exact if_pos h
  · exact if_neg (by rw [show (calculate_recycling_rate rows).2.2 =
      recyclableSum (rows.filter validWeight) + generalSum (rows.filter validWeight) +
        foodSum (rows.filter validWeight) from rfl] at h; rw [h]; exact lt_irrefl 0)

/-- Witness for C1: both hypotheses are satisfiable — a row set with positive
total obeys the division formula, and a row set with no usable weight has
total 0 and rate 0. -/
theorem C1_rate_summary_witness :
    (calculate_recycling_rate onePosRow).1 =
      recyclableSum (onePosRow.filter validWeight) / (calculate_recycling_rate onePosRow).2.2 *
        100 ∧
    (calculate_recycling_rate noWeightRows).1 = 0 :=
  ⟨(C1_rate_summary onePosRow).2.1 (by with_unfolding_all decide),
   (C1_rate_summary noWeightRows).2.2 (by with_unfolding_all decide)⟩

/-! ## C2 -/

/-- C2: rows whose weight is missing or not strictly positive contribute to no
category sum and no total — the rate calculator's output on any row set equals
its output on the subset of rows with present, strictly positive weight. -/
theorem C2_invalid_rows_ignored (rows : List Row) :
    calculate_recycling_rate rows = calculate_recycling_rate (rows.filter validWeight) := by
  unfold calculate_recycling_rate
  rw [filter_filter_self]

/-! ## C9 -/

/-- C9: the non-positive-weight filter is idempotent, so the double filtering
in the pipeline is harmless — applying the rate calculator to a row set
already restricted to rows with present, strictly positive weight (as
`analyze_recycling` does before calling it) yields the same
(rate, food, total) triple as applying it to the unrestricted set. -/
theorem C9_double_filter_harmless (rows : List Row) :
    calculate_recycling_rate (rows.filter validWeight) = calculate_recycling_rate rows := by
  unfold calculate_recycling_rate
  rw [filter_filter_self]

/-! ## C6 -/

/-- C6: the site-label lookup is total and never fails — each of the six
mapped postal codes yields its hotel name, and every other string yields
exactly `"Unknown"`. -/
theorem C6_hotel_lookup_total :
    (∀ p : String,
      p ∉ ["EC3N 1AX", "SW1V 1QF", "W2 1EG", "NW1 7BY", "SW1V 1RG", "NW1 6UB"] →
        get_hotel_name p = "Unknown") ∧
    get_hotel_name "EC3N 1AX" = "Canopy" ∧ get_hotel_name "SW1V 1QF" = "CIV" ∧
    get_hotel_name "W2 1EG" = "CIE" ∧ get_hotel_name "NW1 7BY" = "Camden" ∧
    get_hotel_name "SW1V 1RG" = "EH" ∧ get_hotel_name "NW1 6UB" = "Head Office" := by
  refine ⟨fun p hp => ?_, rfl, rfl, rfl, rfl, rfl, rfl⟩
  simp only [List.mem_cons, List.not_mem_nil, or_false, not_or] at hp
  obtain ⟨h1, h2, h3, h4, h5, h6⟩ := hp
  simp [get_hotel_name, hotelMapping, List.lookup, beq_eq_false_iff_ne.mpr h1,
    beq_eq_false_iff_ne.mpr h2, beq_eq_false_iff_ne.mpr h3, beq_eq_false_iff_ne.mpr h4,
    beq_eq_false_iff_ne.mpr h5, beq_eq_false_iff_ne.mpr h6]

/-- Witness for C6: an unmapped postal code maps to `"Unknown"`. -/
theorem C6_hotel_lookup_total_witness : get_hotel_name "AB1 2CD" = "Unknown" :=
  C6_hotel_lookup_total.1 "AB1 2CD" (by decide)

/-! ## C7 -/

theorem weightOf_nonneg_of_valid (r : Row) (h : validWeight r = true) : 0 ≤ weightOf r := by
  unfold validWeight at h
  unfold weightOf
  cases hw : r.weight with
  | none => rw [hw] at h; cases h
  | some w =>
      rw [hw] at h
      simp only [decide_eq_true_eq] at h
      simpa using le_of_lt h

theorem colSum_nonneg (l : List Row) (h : ∀ r ∈ l, 0 ≤ weightOf r) : 0 ≤ colSum l := by
  unfold colSum
  apply List.sum_nonneg
  intro x hx
  rw [List.mem_map] at hx
  obtain ⟨r, hr, rfl⟩ := hx
  exact h r hr

theorem colSum_filter_valid_nonneg (rows : List Row) (q : Row → Bool) :
    0 ≤ colSum ((rows.filter validWeight).filter q) :=
  colSum_nonneg _ (fun r hr =>
    weightOf_nonneg_of_valid r (List.mem_filter.mp (List.mem_filter.mp hr).1).2)

/-- C7: for every row set whose weights are all non-negative (the loader's
precondition; a missing weight counts as 0), the summary produced by
`calculate_recycling_rate` has non-negative recyclable, general, food and
total weights, and the recycling rate is bounded within [0, 100]. -/
theorem C7_summary_bounds (rows : List Row) (h : ∀ r ∈ rows, 0 ≤ weightOf r) :
    0 ≤ recyclableSum (rows.filter validWeight) ∧
    0 ≤ generalSum (rows.filter validWeight) ∧
    0 ≤ (calculate_recycling_rate rows).2.1 ∧
    0 ≤ (calculate_recycling_rate rows).2.2 ∧
    0 ≤ (calculate_recycling_rate rows).1 ∧ (calculate_recycling_rate rows).1 ≤ 100 := by
  have hA : 0 ≤ recyclableSum (rows.filter validWeight) := colSum_filter_valid_nonneg rows _
  have hB : 0 ≤ generalSum (rows.filter validWeight) := colSum_filter_valid_nonneg rows _
  have hC : 0 ≤ foodSum (rows.filter validWeight) := colSum_filter_valid_nonneg rows _
  have hrate : (calculate_recycling_rate rows).1 =
      if 0 < recyclableSum (rows.filter validWeight) + generalSum (rows.filter validWeight) +
          foodSum (rows.filter validWeight) then
        recyclableSum (rows.filter validWeight) /
          (recyclableSum (rows.filter validWeight) + generalSum (rows.filter validWeight) +
            foodSum (rows.filter validWeight)) * 100
      else 0 := rfl
  have hfood : (calculate_recycling_rate rows).2.1 = foodSum (rows.filter validWeight) := rfl
  have htot : (calculate_recycling_rate rows).2.2 =
      recyclableSum (rows.filter validWeight) + generalSum (rows.filter validWeight) +
        foodSum (rows.filter validWeight) := rfl
  refine ⟨hA, hB, hfood ▸ hC, htot ▸ add_nonneg (add_nonneg hA hB) hC, ?_, ?_⟩ <;> rw [hrate]
  · split
    · next h0 => exact mul_nonneg (div_nonneg hA (le_of_lt h0)) (by norm_num)
    · exact le_refl 0
  · split
    · next h0 =>
        have hle : recyclableSum (rows.filter validWeight) ≤
            recyclableSum (rows.filter validWeight) + generalSum (rows.filter validWeight) +
              foodSum (rows.filter validWeight) := by
          have hbc := add_nonneg hB hC
          calc recyclableSum (rows.filter validWeight)
              ≤ recyclableSum (rows.filter validWeight) +
                  (generalSum (rows.filter validWeight) + foodSum (rows.filter validWeight)) :=
                le_add_of_nonneg_right hbc
            _ = recyclableSum (rows.filter validWeight) + generalSum (rows.filter validWeight) +
                  foodSum (rows.filter validWeight) := (add_assoc _ _ _).symm
        have h1 : recyclableSum (rows.filter validWeight) /
            (recyclableSum (rows.filter validWeight) + generalSum (rows.filter validWeight) +
              foodSum (rows.filter validWeight)) ≤ 1 := (div_le_one h0).mpr hle
        calc recyclableSum (rows.filter validWeight) /
              (recyclableSum (rows.filter validWeight) + generalSum (rows.filter validWeight) +
                foodSum (rows.filter validWeight)) * 100
            ≤ 1 * 100 := mul_le_mul_of_nonneg_right h1 (by norm_num)
          _ = 100 := one_mul 100
    · norm_num

/-- Witness for C7: the spec's example row set satisfies the non-negativity
precondition and the bounds. -/
theorem C7_summary_bounds_witness :
    0 ≤ recyclableSum (exampleRows.filter validWeight) ∧
    0 ≤ generalSum (exampleRows.filter validWeight) ∧
    0 ≤ (calculate_recycling_rate exampleRows).2.1 ∧
    0 ≤ (calculate_recycling_rate exampleRows).2.2 ∧
    0 ≤ (calculate_recycling_rate exampleRows).1 ∧
    (calculate_recycling_rate exampleRows).1 ≤ 100 :=
  C7_summary_bounds exampleRows (by with_unfolding_all decide)

/-! ## C8 -/

/-- C8: the aggregator is a deterministic pure function of its inputs —
running it on identical input and filter yields identical output in every
returned table and value. -/
theorem C8_deterministic (df1 df2 : List Row) (oh1 oh2 : Option String)
    (hdf : df1 = df2) (hoh : oh1 = oh2) :
    analyze_recycling df1 oh1 = analyze_recycling df2 oh2 := by
  rw [hdf, hoh]

/-- Witness for C8: two runs on the spec's example input coincide. -/
theorem C8_deterministic_witness :
    analyze_recycling exampleRows none = analyze_recycling exampleRows none :=
  C8_deterministic exampleRows exampleRows none none rfl rfl

/-! ## C4 -/

/-- Seven weekdays engineered to produce the spec's insight example rates
[40, 80, 60, 60, 60, 60, 60] (mean 60, warning threshold 48). -/
def weekRows : List Row :=
  [⟨1, "Canopy", "Monday", "January", 1, "Mixed Recycling", some 2⟩,
   ⟨1, "Canopy", "Monday", "January", 1, "General Waste", some 3⟩,
   ⟨2, "Canopy", "Tuesday", "January", 1, "Mixed Recycling", some 4⟩,
   ⟨2, "Canopy", "Tuesday", "January", 1, "General Waste", some 1⟩,
   ⟨3, "Canopy", "Wednesday", "January", 1, "Mixed Recycling", some 3⟩,
   ⟨3, "Canopy", "Wednesday", "January", 1, "General Waste", some 2⟩,
   ⟨4, "Canopy", "Thursday", "January", 1, "Mixed Recycling", some 3⟩,
   ⟨4, "Canopy", "Thursday", "January", 1, "General Waste", some 2⟩,
   ⟨5, "Canopy", "Friday", "January", 1, "Mixed Recycling", some 3⟩,
   ⟨5, "Canopy", "Friday", "January", 1, "General Waste", some 2⟩,
   ⟨6, "Canopy", "Saturday", "January", 1, "Mixed Recycling", some 3⟩,
   ⟨6, "Canopy", "Saturday", "January", 1, "General Waste", some 2⟩,
   ⟨7, "Canopy", "Sunday", "January", 1, "Mixed Recycling", some 3⟩,
   ⟨7, "Canopy", "Sunday", "January", 1, "General Waste", some 2⟩]

/-- C4: whenever at least one weekday has positive total weight, the
aggregator emits exactly one warning insight per weekday whose recycling rate
is strictly below 80 % of the unweighted mean of the per-weekday rates — and
no warning for any other weekday.  On the engineered example with rates
[40, 80, 60, 60, 60, 60, 60] only Monday (rate 40 < 48) warns. -/
theorem C4_low_day_warnings :
    (∀ (df : List Row) (oh : Option String), day_rates_of df oh ≠ [] →
      warningsOf (analyze_recycling df oh).insights =
        ((day_rates_of df oh).filter
            (fun d => decide (d.rate < avgRate (day_rates_of df oh) * (4 / 5)))).map
          (fun d => Insight.warning d.day d.rate)) ∧
    warningsOf (analyze_recycling weekRows none).insights = [Insight.warning "Monday" 40] := by
  constructor
  · intro df oh hne
    have hemp : (day_rates_of df oh).isEmpty = false := by
      cases h' : day_rates_of df oh with
      | nil => exact absurd h' hne
      | cons a t => rfl
    show warningsOf (insights_of df oh) = _
    unfold insights_of warning_insights_of
    rw [hemp]
    split <;>
      simp [warningsOf, isWarning, List.filter_append, List.filter_map, Function.comp]
  · with_unfolding_all decide

/-- Witness for C4: the nonemptiness hypothesis is satisfiable on the
engineered week. -/
theorem C4_low_day_warnings_witness :
    warningsOf (analyze_recycling weekRows none).insights =
      ((day_rates_of weekRows none).filter
          (fun d => decide (d.rate < avgRate (day_rates_of weekRows none) * (4 / 5)))).map
        (fun d => Insight.warning d.day d.rate) :=
  C4_low_day_warnings.1 weekRows none (by with_unfolding_all decide)

/-! ## C5 -/

theorem infosOf_warning_insights (df : List Row) (oh : Option String) :
    infosOf (warning_insights_of df oh) = [] := by
  unfold warning_insights_of
  split
  · rfl
  · simp [infosOf, isInfo, List.filter_map, Function.comp]

theorem avg_food_per_day_eq (df : List Row) (oh : Option String) :
    avg_food_per_day_of df oh =
      (calculate_recycling_rate (filteredDF df oh)).2.1 /
        ((daily_df_of df oh).length : ℚ) := by
  unfold avg_food_per_day_of
  split
  · next h =>
      cases hd : daily_df_of df oh with
      | nil => simp
      | cons a t => rw [hd] at h; cases h
  · rfl

/-- C5: the aggregator appends the informational food-waste insight exactly
when the mean daily food waste — the overall food total divided by the number
of dates in the per-date table — exceeds 0.2 tonnes per day (and the insight
carries that mean). -/
theorem C5_food_insight (df : List Row) (oh : Option String) :
    infosOf (analyze_recycling df oh).insights =
      (if (1 / 5 : ℚ) < (analyze_recycling df oh).total_food /
          (((analyze_recycling df oh).daily_df.length : ℚ)) then
        [Insight.info ((analyze_recycling df oh).total_food /
          (((analyze_recycling df oh).daily_df.length : ℚ)))]
      else []) := by
  show infosOf (insights_of df oh) =
    if (1 / 5 : ℚ) < (calculate_recycling_rate (filteredDF df oh)).2.1 /
        (((daily_df_of df oh).length : ℚ)) then
      [Insight.info ((calculate_recycling_rate (filteredDF df oh)).2.1 /
        (((daily_df_of df oh).length : ℚ)))]
    else []
  unfold insights_of
  rw [avg_food_per_day_eq]
  split
  · have hw : (warning_insights_of df oh).filter isInfo = [] := infosOf_warning_insights df oh
    unfold infosOf
    rw [List.filter_append, hw]
    rfl
  · exact infosOf_warning_insights df oh

/-! ## C3 -/

/-- Maximum of a list of rationals (`0` for the empty list, never used there). -/
def listMaxQ : List ℚ → ℚ
  | [] => 0
  | x :: xs => xs.foldl max x

/-- Minimum of a list of rationals (`0` for the empty list, never used there). -/
def listMinQ : List ℚ → ℚ
  | [] => 0
  | x :: xs => xs.foldl min x

/-- Spec-side characterisation of `idxmax`: the first-encountered row whose
rate attains the maximum rate of the table. -/
def specBestWeekday (l : List DayRate) : Option DayRate :=
  l.find? (fun d => decide (listMaxQ (l.map DayRate.rate) ≤ d.rate))

/-- Spec-side characterisation of `idxmin`: the first-encountered row whose
rate attains the minimum rate of the table. -/
def specWorstWeekday (l : List DayRate) : Option DayRate :=
  l.find? (fun d => decide (d.rate ≤ listMinQ (l.map DayRate.rate)))

theorem le_foldl_max (xs : List ℚ) : ∀ x : ℚ, x ≤ xs.foldl max x := by
  induction xs with
  | nil => intro x; exact le_refl x
  | cons z zs ih => intro x; exact le_trans (le_max_left x z) (ih (max x z))

theorem mem_le_foldl_max (xs : List ℚ) : ∀ x y : ℚ, y ∈ xs → y ≤ xs.foldl max x := by
  induction xs with
  | nil => intro x y hy; cases hy
  | cons z zs ih =>
      intro x y hy
      rcases List.mem_cons.mp hy with h | h
      · subst h; exact le_trans (le_max_right x y) (le_foldl_max zs (max x y))
      · exact ih (max x z) y h

theorem foldl_max_mem (xs : List ℚ) : ∀ x : ℚ, xs.foldl max x ∈ x :: xs := by
  induction xs with
  | nil => intro x; exact List.mem_singleton.mpr rfl
  | cons z zs ih =>
      intro x
      show zs.foldl max (max x z) ∈ x :: z :: zs
      rcases List.mem_cons.mp (ih (max x z)) with h1 | h1
      · rcases max_choice x z with hm | hm
        · rw [h1, hm]; exact List.mem_cons_self x _
        · rw [h1, hm]; exact List.mem_cons_of_mem x (List.mem_cons_self z zs)
      · exact List.mem_cons_of_mem x (List.mem_cons_of_mem z h1)

theorem foldl_min_le (xs : List ℚ) : ∀ x : ℚ, xs.foldl min x ≤ x := by
  induction xs with
  | nil => intro x; exact le_refl x
  | cons z zs ih => intro x; exact le_trans (ih (min x z)) (min_le_left x z)

theorem foldl_min_le_mem (xs : List ℚ) : ∀ x y : ℚ, y ∈ xs → xs.foldl min x ≤ y := by
  induction xs with
  | nil => intro x y hy; cases hy
  | cons z zs ih =>
      intro x y hy
      rcases List.mem_cons.mp hy with h | h
      · subst h; exact le_trans (foldl_min_le zs (min x y)) (min_le_right x y)
      · exact ih (min x z) y h

theorem foldl_min_mem (xs : List ℚ) : ∀ x : ℚ, xs.foldl min x ∈ x :: xs := by
  induction xs with
  | nil => intro x; exact List.mem_singleton.mpr rfl
  | cons z zs ih =>
      intro x
      show zs.foldl min (min x z) ∈ x :: z :: zs
      rcases List.mem_cons.mp (ih (min x z)) with h1 | h1
      · rcases min_choice x z with hm | hm
        · rw [h1, hm]; exact List.mem_cons_self x _
        · rw [h1, hm]; exact List.mem_cons_of_mem x (List.mem_cons_self z zs)
      · exact List.mem_cons_of_mem x (List.mem_cons_of_mem z h1)

theorem pickBest_rate_le (ds : List DayRate) : ∀ m : DayRate, m.rate ≤ (pickBest m ds).rate := by
  induction ds with
  | nil => intro m; exact le_refl _
  | cons d t ih =>
      intro m
      show m.rate ≤ (pickBest (if m.rate < d.rate then d else m) t).rate
      refine le_trans ?_ (ih _)
      split
      · next h => exact le_of_lt h
      · exact le_refl _

theorem pickBest_mem_le (ds : List DayRate) :
    ∀ m x, x ∈ ds → x.rate ≤ (pickBest m ds).rate := by
  induction ds with
  | nil => intro m x hx; cases hx
  | cons d t ih =>
      intro m x hx
      show x.rate ≤ (pickBest (if m.rate < d.rate then d else m) t).rate
      rcases List.mem_cons.mp hx with h | h
      · subst h
        refine le_trans ?_ (pickBest_rate_le t _)
        split
        · exact le_refl _
        · next hlt => exact le_of_not_lt hlt
      · exact ih _ x h

theorem pickBest_first (ds : List DayRate) :
    ∀ m : DayRate, ∃ l1 l2, m :: ds = l1 ++ (pickBest m ds) :: l2 ∧
      ∀ x ∈ l1, x.rate < (pickBest m ds).rate := by
  induction ds with
  | nil =>
      intro m
      exact ⟨[], [], rfl, fun x hx => absurd hx (List.not_mem_nil x)⟩
  | cons d t ih =>
      intro m
      show ∃ l1 l2, m :: d :: t = l1 ++ (pickBest (if m.rate < d.rate then d else m) t) :: l2 ∧
        ∀ x ∈ l1, x.rate < (pickBest (if m.rate < d.rate then d else m) t).rate
      by_cases hlt : m.rate < d.rate
      · rw [if_pos hlt]
        obtain ⟨l1, l2, heq, hlo⟩ := ih d
        refine ⟨m :: l1, l2, ?_, ?_⟩
        · rw [List.cons_append, ← heq]
        · intro x hx
          rcases List.mem_cons.mp hx with h | h
          · subst h; exact lt_of_lt_of_le hlt (pickBest_rate_le t d)
          · exact hlo x h
      · rw [if_neg hlt]
        obtain ⟨l1, l2, heq, hlo⟩ := ih m
        cases l1 with
        | nil =>
            rw [List.nil_append] at heq
            injection heq with h1 h2
            exact ⟨[], d :: t, by rw [List.nil_append, ← h1], fun x hx =>
              absurd hx (List.not_mem_nil x)⟩
        | cons a l1t =>
            rw [List.cons_append] at heq
            injection heq with h1 h2
            subst h1
            refine ⟨m :: d :: l1t, l2, ?_, ?_⟩
            · rw [List.cons_append, List.cons_append, ← h2]
            · intro x hx
              rcases List.mem_cons.mp hx with h | h
              · subst h; exact hlo x (List.mem_cons_self x l1t)
              · rcases List.mem_cons.mp h with h' | h'
                · subst h'
                  exact lt_of_le_of_lt (le_of_not_lt hlt) (hlo m (List.mem_cons_self m l1t))
                · exact hlo x (List.mem_cons_of_mem m h')

theorem pickWorst_rate_ge (ds : List DayRate) :
    ∀ m : DayRate, (pickWorst m ds).rate ≤ m.rate := by
  induction ds with
  | nil => intro m; exact le_refl _
  | cons d t ih =>
      intro m
      show (pickWorst (if d.rate < m.rate then d else m) t).rate ≤ m.rate
      refine le_trans (ih _) ?_
      split
      · next h => exact le_of_lt h
      · exact le_refl _

theorem pickWorst_mem_ge (ds : List DayRate) :
    ∀ m x, x ∈ ds → (pickWorst m ds).rate ≤ x.rate := by
  induction ds with
  | nil => intro m x hx; cases hx
  | cons d t ih =>
      intro m x hx
      show (pickWorst (if d.rate < m.rate then d else m) t).rate ≤ x.rate
      rcases List.mem_cons.mp hx with h | h
      · subst h
        refine le_trans (pickWorst_rate_ge t _) ?_
        split
        · exact le_refl _
        · next hlt => exact le_of_not_lt hlt
      · exact ih _ x h

theorem pickWorst_first (ds : List DayRate) :
    ∀ m : DayRate, ∃ l1 l2, m :: ds = l1 ++ (pickWorst m ds) :: l2 ∧
      ∀ x ∈ l1, (pickWorst m ds).rate < x.rate := by
  induction ds with
  | nil =>
      intro m
      exact ⟨[], [], rfl, fun x hx => absurd hx (List.not_mem_nil x)⟩
  | cons d t ih =>
      intro m
      show ∃ l1 l2, m :: d :: t = l1 ++ (pickWorst (if d.rate < m.rate then d else m) t) :: l2 ∧
        ∀ x ∈ l1, (pickWorst (if d.rate < m.rate then d else m) t).rate < x.rate
      by_cases hlt : d.rate < m.rate
      · rw [if_pos hlt]
        obtain ⟨l1, l2, heq, hlo⟩ := ih d
        refine ⟨m :: l1, l2, ?_, ?_⟩
        · rw [List.cons_append, ← heq]
        · intro x hx
          rcases List.mem_cons.mp hx with h | h
          · subst h; exact lt_of_le_of_lt (pickWorst_rate_ge t d) hlt
          · exact hlo x h
      · rw [if_neg hlt]
        obtain ⟨l1, l2, heq, hlo⟩ := ih m
        cases l1 with
        | nil =>
            rw [List.nil_append] at heq
            injection heq with h1 h2
            exact ⟨[], d :: t, by rw [List.nil_append, ← h1], fun x hx =>
              absurd hx (List.not_mem_nil x)⟩
        | cons a l1t =>
            rw [List.cons_append] at heq
            injection heq with h1 h2
            subst h1
            refine ⟨m :: d :: l1t, l2, ?_, ?_⟩
            · rw [List.cons_append, List.cons_append, ← h2]
            · intro x hx
              rcases List.mem_cons.mp hx with h | h
              · subst h; exact hlo x (List.mem_cons_self x l1t)
              · rcases List.mem_cons.mp h with h' | h'
                · subst h'
                  exact lt_of_lt_of_le (hlo m (List.mem_cons_self m l1t)) (le_of_not_lt hlt)
                · exact hlo x (List.mem_cons_of_mem m h')

theorem find_first {α : Type} (p : α → Bool) (b : α) (l2 : List α) :
    ∀ l1 : List α, (∀ x ∈ l1, p x = false) → p b = true →
      (l1 ++ b :: l2).find? p = some b := by
  intro l1
  induction l1 with
  | nil =>
      intro _ hb
      rw [List.nil_append]
      exact List.find?_cons_of_pos l2 hb
  | cons a t ih =>
      intro h1 hb
      rw [List.cons_append,
        List.find?_cons_of_neg _ (by rw [h1 a (List.mem_cons_self a t)]; exact Bool.false_ne_true)]
      exact ih (fun x hx => h1 x (List.mem_cons_of_mem a hx)) hb

theorem specBest_eq_pickBest (m : DayRate) (t : List DayRate) :
    specBestWeekday (m :: t) = some (pickBest m t) := by
  have hub : ∀ x ∈ m :: t, x.rate ≤ (pickBest m t).rate := by
    intro x hx
    rcases List.mem_cons.mp hx with h | h
    · subst h; exact pickBest_rate_le t x
    · exact pickBest_mem_le t m x h
  obtain ⟨l1, l2, heq, hlo⟩ := pickBest_first t m
  have hb_mem : pickBest m t ∈ m :: t := by
    rw [heq]; exact List.mem_append_right l1 (List.mem_cons_self _ _)
  have hmax : listMaxQ ((m :: t).map DayRate.rate) = (pickBest m t).rate := by
    have hfold : listMaxQ ((m :: t).map DayRate.rate) =
        (t.map DayRate.rate).foldl max m.rate := rfl
    apply le_antisymm
    · rw [hfold]
      rcases List.mem_cons.mp (foldl_max_mem (t.map DayRate.rate) m.rate) with h | h
      · rw [h]; exact hub m (List.mem_cons_self m t)
      · rw [List.mem_map] at h
        obtain ⟨x, hx, hxe⟩ := h
        rw [← hxe]; exact hub x (List.mem_cons_of_mem m hx)
    · rw [hfold]
      rcases List.mem_cons.mp hb_mem with h | h
      · rw [h]; exact le_foldl_max (t.map DayRate.rate) m.rate
      · exact mem_le_foldl_max (t.map DayRate.rate) m.rate _ (List.mem_map_of_mem DayRate.rate h)
  unfold specBestWeekday
  rw [heq]
  apply find_first
  · intro x hx
    rw [← heq, hmax]
    exact decide_eq_false (not_le.mpr (hlo x hx))
  · rw [← heq, hmax]
    exact decide_eq_true (le_refl _)

theorem specWorst_eq_pickWorst (m : DayRate) (t : List DayRate) :
    specWorstWeekday (m :: t) = some (pickWorst m t) := by
  have hlb : ∀ x ∈ m :: t, (pickWorst m t).rate ≤ x.rate := by
    intro x hx
    rcases List.mem_cons.mp hx with h | h
    · subst h; exact pickWorst_rate_ge t x
    · exact pickWorst_mem_ge t m x h
  obtain ⟨l1, l2, heq, hlo⟩ := pickWorst_first t m
  have hb_mem : pickWorst m t ∈ m :: t := by
    rw [heq]; exact List.mem_append_right l1 (List.mem_cons_self _ _)
  have hmin : listMinQ ((m :: t).map DayRate.rate) = (pickWorst m t).rate := by
    have hfold : listMinQ ((m :: t).map DayRate.rate) =
        (t.map DayRate.rate).foldl min m.rate := rfl
    apply le_antisymm
    · rw [hfold]
      rcases List.mem_cons.mp hb_mem with h | h
      · rw [h]; exact foldl_min_le (t.map DayRate.rate) m.rate
      · exact foldl_min_le_mem (t.map DayRate.rate) m.rate _ (List.mem_map_of_mem DayRate.rate h)
    · rw [hfold]
      rcases List.mem_cons.mp (foldl_min_mem (t.map DayRate.rate) m.rate) with h | h
      · rw [h]; exact hlb m (List.mem_cons_self m t)
      · rw [List.mem_map] at h
        obtain ⟨x, hx, hxe⟩ := h
        rw [← hxe]; exact hlb x (List.mem_cons_of_mem m hx)
  unfold specWorstWeekday
  rw [heq]
  apply find_first
  · intro x hx
    rw [← heq, hmin]
    exact decide_eq_false (not_le.mpr (hlo x hx))
  · rw [← heq, hmin]
    exact decide_eq_true (le_refl _)

/-- C3: the aggregator's best (resp. worst) weekday is the first-encountered
weekday attaining the maximum (resp. minimum) recycling rate among the
weekdays with positive total weight; when no weekday has positive total
weight (including when the site filter matches no records) both are the
`'No Data'` sentinel with rate 0.  On the spec's example, Monday's rate is
40 %, Tuesday's is 80 %, best is Tuesday and worst is Monday. -/
theorem C3_best_worst_weekday :
    (∀ (df : List Row) (oh : Option String),
      (analyze_recycling df oh).best_day =
        (specBestWeekday (analyze_recycling df oh).day_rates).elim BW.noData BW.row ∧
      (analyze_recycling df oh).worst_day =
        (specWorstWeekday (analyze_recycling df oh).day_rates).elim BW.noData BW.row) ∧
    (analyze_recycling exampleRows none).day_rates =
      [⟨"Monday", 40, 0, 5⟩, ⟨"Tuesday", 80, 1, 5⟩] ∧
    (analyze_recycling exampleRows none).best_day = BW.row ⟨"Tuesday", 80, 1, 5⟩ ∧
    (analyze_recycling exampleRows none).worst_day = BW.row ⟨"Monday", 40, 0, 5⟩ ∧
    (analyze_recycling exampleRows (some "CIV")).day_rates = [] ∧
    (analyze_recycling exampleRows (some "CIV")).best_day = BW.noData ∧
    (analyze_recycling exampleRows (some "CIV")).worst_day = BW.noData ∧
    BW.dayName BW.noData = "No Data" ∧ BW.rateVal BW.noData = 0 := by
  refine ⟨fun df oh => ⟨?_, ?_⟩, ?_, ?_, ?_, ?_, ?_, ?_, rfl, rfl⟩
  · show best_day_of df oh = (specBestWeekday (day_rates_of df oh)).elim BW.noData BW.row
    unfold best_day_of
    cases hdr : day_rates_of df oh with
    | nil => rfl
    | cons m t => rw [specBest_eq_pickBest]; rfl
  · show worst_day_of df oh = (specWorstWeekday (day_rates_of df oh)).elim BW.noData BW.row
    unfold worst_day_of
    cases hdr : day_rates_of df oh with
    | nil => rfl
    | cons m t => rw [specWorst_eq_pickWorst]; rfl
  · with_unfolding_all decide
  · with_unfolding_all decide
  · with_unfolding_all decide
  · with_unfolding_all decide
  · with_unfolding_all decide
  · with_unfolding_all decide

/-! ## C10 -/

/-- A waste-type label recognized by the rate arithmetic: recyclable,
general or food. -/
def recognizedType (t : String) : Bool :=
  decide (t ∈ recyclableTypes) || decide (t = "General Waste") || decide (t = "Food Waste")

/-- Spec-side per-date total: the summed weight of the filtered rows of one
service date whose waste type is recognized. -/
def spec_dateTotal (df : List Row) (oh : Option String) (d : Nat) : ℚ :=
  colSum ((filteredDF df oh).filter
    (fun r => recognizedType r.wasteType && decide (r.serviceDate = d)))

/-- A frame where date 5 carries only a positive-weight row with an
unrecognised waste label. -/
def scrapRows : List Row :=
  [⟨1, "Canopy", "Monday", "January", 1, "Mixed Recycling", some 2⟩,
   ⟨5, "Canopy", "Friday", "January", 1, "Scrap Metal", some 3⟩]

theorem mem_uniqAux {α : Type} [DecidableEq α] (a : α) :
    ∀ (l seen : List α), a ∈ uniqAux seen l ↔ a ∈ l ∧ a ∉ seen := by
  intro l
  induction l with
  | nil => intro seen; simp [uniqAux]
  | cons x xs ih =>
      intro seen
      unfold uniqAux
      by_cases hx : x ∈ seen
      · rw [if_pos hx, ih seen]
        constructor
        · rintro ⟨h1, h2⟩; exact ⟨List.mem_cons_of_mem x h1, h2⟩
        · rintro ⟨h1, h2⟩
          rcases List.mem_cons.mp h1 with h | h
          · subst h; exact absurd hx h2
          · exact ⟨h, h2⟩
      · rw [if_neg hx]
        constructor
        · intro h
          rcases List.mem_cons.mp h with h | h
          · subst h; exact ⟨List.mem_cons_self a xs, hx⟩
          · rw [ih (x :: seen)] at h
            obtain ⟨h1, h2⟩ := h
            exact ⟨List.mem_cons_of_mem x h1, fun hs => h2 (List.mem_cons_of_mem x hs)⟩
        · rintro ⟨h1, h2⟩
          rcases List.mem_cons.mp h1 with h | h
          · subst h; exact List.mem_cons_self a _
          · by_cases hax : a = x
            · subst hax; exact List.mem_cons_self a _
            · apply List.mem_cons_of_mem
              rw [ih (x :: seen)]
              exact ⟨h, fun hs => (List.mem_cons.mp hs).elim (fun he => hax he) (fun hs' => h2 hs')⟩

theorem nodup_uniqAux {α : Type} [DecidableEq α] :
    ∀ (l seen : List α), (uniqAux seen l).Nodup := by
  intro l
  induction l with
  | nil => intro seen; exact List.nodup_nil
  | cons x xs ih =>
      intro seen
      unfold uniqAux
      by_cases hx : x ∈ seen
      · rw [if_pos hx]; exact ih seen
      · rw [if_neg hx]
        refine List.nodup_cons.mpr ⟨?_, ih (x :: seen)⟩
        intro hmem
        rw [mem_uniqAux] at hmem
        exact hmem.2 (List.mem_cons_self x seen)

theorem mem_uniq {α : Type} [DecidableEq α] (a : α) (l : List α) : a ∈ uniq l ↔ a ∈ l := by
  unfold uniq
  rw [mem_uniqAux]
  simp

theorem nodup_uniq {α : Type} [DecidableEq α] (l : List α) : (uniq l).Nodup :=
  nodup_uniqAux l []

theorem colSum_cons (r : Row) (l : List Row) : colSum (r :: l) = weightOf r + colSum l := by
  simp [colSum]

theorem colSum_filter_disjoint (p q : Row → Bool) (hpq : ∀ r, p r = true → q r = false) :
    ∀ l : List Row, colSum (l.filter p) + colSum (l.filter q) =
      colSum (l.filter (fun r => p r || q r)) := by
  intro l
  induction l with
  | nil => simp [colSum]
  | cons r t ih =>
      cases hp : p r with
      | true =>
          cases hq : q r with
          | true => rw [hpq r hp] at hq; cases hq
          | false =>
              simp only [List.filter_cons, hp, hq, Bool.true_or, if_true, Bool.false_eq_true,
                if_false]
              rw [colSum_cons, colSum_cons, ← ih]
              ring
      | false =>
          cases hq : q r with
          | true =>
              simp only [List.filter_cons, hp, hq, Bool.false_or, if_true, Bool.false_eq_true,
                if_false]
              rw [colSum_cons, colSum_cons, ← ih]
              ring
          | false =>
              simp only [List.filter_cons, hp, hq, Bool.false_or, Bool.false_eq_true, if_false]
              exact ih

theorem fiber_filter_sum {κ : Type} [DecidableEq κ] (key : Row → κ) (q : κ → Bool)
    (F : List Row) :
    ∀ v : List κ, v.Nodup →
      ((((v.map (fun k => (k, colSum (F.filter (fun r => decide (key r = k)))))).filter
          (fun e => q e.1)).map (fun e => e.2)).sum) =
        colSum (F.filter (fun r => q (key r) && decide (key r ∈ v))) := by
  intro v
  induction v with
  | nil =>
      intro _
      have h0 : F.filter (fun r => q (key r) && decide (key r ∈ ([] : List κ))) = [] := by
        simp
      rw [h0]
      simp [colSum]
  | cons k v' ih =>
      intro hnd
      obtain ⟨hk, hnd'⟩ := List.nodup_cons.mp hnd
      by_cases hq : q k = true
      · have hstep :
            ((((k :: v').map (fun k => (k, colSum (F.filter (fun r => decide (key r = k)))))).filter
                (fun e => q e.1)).map (fun e => e.2)).sum =
              colSum (F.filter (fun r => decide (key r = k))) +
                ((((v'.map (fun k =>
                    (k, colSum (F.filter (fun r => decide (key r = k)))))).filter
                  (fun e => q e.1)).map (fun e => e.2)).sum) := by
          simp [List.filter_cons, hq]
        rw [hstep, ih hnd']
        rw [colSum_filter_disjoint (fun r => decide (key r = k))
          (fun r => q (key r) && decide (key r ∈ v'))
          (fun r hr => by
            simp only [decide_eq_true_eq] at hr
            show (q (key r) && decide (key r ∈ v')) = false
            rw [hr, decide_eq_false hk, Bool.and_false])]
        apply congrArg
        apply List.filter_congr
        intro r _
        by_cases hkr : key r = k
        · simp [hkr, hq, List.mem_cons]
        · simp [hkr, List.mem_cons]
      · have hstep :
            ((((k :: v').map (fun k => (k, colSum (F.filter (fun r => decide (key r = k)))))).filter
                (fun e => q e.1)).map (fun e => e.2)).sum =
              ((((v'.map (fun k =>
                  (k, colSum (F.filter (fun r => decide (key r = k)))))).filter
                (fun e => q e.1)).map (fun e => e.2)).sum) := by
          simp [List.filter_cons, hq]
        rw [hstep, ih hnd']
        apply congrArg
        apply List.filter_congr
        intro r _
        by_cases hkr : key r = k
        · have hqr : q (key r) = false := by
            rw [hkr]
            revert hq
            cases q k <;> simp
          simp [hqr]
        · simp [hkr, List.mem_cons]

theorem filter_filter_bool {α : Type} (p q : α → Bool) (l : List α) :
    (l.filter q).filter p = l.filter (fun a => p a && q a) := by
  induction l with
  | nil => rfl
  | cons x t ih =>
      cases hq : q x <;> cases hp : p x <;>
        simp [List.filter_cons, hp, hq, ih]

theorem dayPart_eq (F : List Row) (d : Nat) (p : String → Bool) :
    (((dayGroup F d).filter (fun e => p e.1.2)).map (fun e => e.2)).sum =
      colSum (F.filter (fun r => p r.wasteType && decide (r.serviceDate = d))) := by
  have h := fiber_filter_sum keyOf (fun k => p k.2 && decide (k.1 = d)) F
    (uniq (F.map keyOf)) (nodup_uniq _)
  unfold dayGroup daily_data_of
  rw [filter_filter_bool]
  refine h.trans (congrArg colSum (List.filter_congr ?_))
  intro r hr
  have h1 : (r.serviceDate, r.wasteType) ∈ uniq (F.map keyOf) :=
    (mem_uniq _ _).mpr (List.mem_map_of_mem keyOf hr)
  simp [keyOf, h1]

theorem dayRec_eq (F : List Row) (d : Nat) :
    dayRec F d = colSum (F.filter
      (fun r => decide (r.wasteType ∈ recyclableTypes) && decide (r.serviceDate = d))) :=
  dayPart_eq F d (fun t => decide (t ∈ recyclableTypes))

theorem dayGen_eq (F : List Row) (d : Nat) :
    dayGen F d = colSum (F.filter
      (fun r => decide (r.wasteType = "General Waste") && decide (r.serviceDate = d))) :=
  dayPart_eq F d (fun t => decide (t = "General Waste"))

theorem dayFood_eq (F : List Row) (d : Nat) :
    dayFood F d = colSum (F.filter
      (fun r => decide (r.wasteType = "Food Waste") && decide (r.serviceDate = d))) :=
  dayPart_eq F d (fun t => decide (t = "Food Waste"))

theorem recyclable_not_general (t : String) (h : t ∈ recyclableTypes) :
    t ≠ "General Waste" := by
  simp only [recyclableTypes, List.mem_cons, List.not_mem_nil, or_false] at h
  rcases h with h | h | h <;> subst h <;> intro he <;> exact absurd he (by decide)

theorem recyclable_not_food (t : String) (h : t ∈ recyclableTypes) :
    t ≠ "Food Waste" := by
  simp only [recyclableTypes, List.mem_cons, List.not_mem_nil, or_false] at h
  rcases h with h | h | h <;> subst h <;> intro he <;> exact absurd he (by decide)

theorem dayTotal_eq (F : List Row) (d : Nat) :
    dayTotal F d = colSum (F.filter
      (fun r => recognizedType r.wasteType && decide (r.serviceDate = d))) := by
  unfold dayTotal
  rw [dayRec_eq, dayGen_eq, dayFood_eq]
  rw [colSum_filter_disjoint
      (fun r => decide (r.wasteType ∈ recyclableTypes) && decide (r.serviceDate = d))
      (fun r => decide (r.wasteType = "General Waste") && decide (r.serviceDate = d))
      (fun r hr => by
        rw [Bool.and_eq_true] at hr
        show (decide (r.wasteType = "General Waste") && decide (r.serviceDate = d)) = false
        rw [decide_eq_false (recyclable_not_general _ (decide_eq_true_eq.mp hr.1)),
          Bool.false_and]) F]
  rw [colSum_filter_disjoint
      (fun r => decide (r.wasteType ∈ recyclableTypes) && decide (r.serviceDate = d) ||
        decide (r.wasteType = "General Waste") && decide (r.serviceDate = d))
      (fun r => decide (r.wasteType = "Food Waste") && decide (r.serviceDate = d))
      (fun r hr => by
        rw [Bool.or_eq_true, Bool.and_eq_true, Bool.and_eq_true] at hr
        show (decide (r.wasteType = "Food Waste") && decide (r.serviceDate = d)) = false
        rcases hr with ⟨hrec, -⟩ | ⟨hgen, -⟩
        · rw [decide_eq_false (recyclable_not_food _ (decide_eq_true_eq.mp hrec)),
            Bool.false_and]
        · rw [decide_eq_true_eq] at hgen
          rw [hgen, decide_eq_false (by decide), Bool.false_and]) F]
  apply congrArg
  apply List.filter_congr
  intro r _
  by_cases h1 : r.wasteType ∈ recyclableTypes <;> by_cases h2 : r.wasteType = "General Waste" <;>
    by_cases h3 : r.wasteType = "Food Waste" <;> by_cases h4 : r.serviceDate = d <;>
    simp [recognizedType, h1, h2, h3, h4]

theorem mem_dates_of (F : List Row) (d : Nat) :
    d ∈ dates_of F ↔ ∃ r ∈ F, r.serviceDate = d := by
  unfold dates_of daily_data_of
  rw [mem_uniq, List.map_map]
  constructor
  · intro h
    rw [List.mem_map] at h
    obtain ⟨k, hk, hke⟩ := h
    rw [mem_uniq, List.mem_map] at hk
    obtain ⟨r, hr, hre⟩ := hk
    rw [← hre] at hke
    exact ⟨r, hr, hke⟩
  · rintro ⟨r, hr, hrd⟩
    rw [List.mem_map]
    exact ⟨keyOf r, (mem_uniq _ _).mpr (List.mem_map_of_mem keyOf hr), hrd⟩

theorem mem_daily_df (df : List Row) (oh : Option String) (d : Nat) :
    d ∈ (daily_df_of df oh).map DateRow.date ↔
      d ∈ dates_of (filteredDF df oh) ∧ 0 < dayTotal (filteredDF df oh) d := by
  unfold daily_df_of
  rw [List.mem_map]
  constructor
  · rintro ⟨x, hx, hxd⟩
    rw [List.mem_flatMap] at hx
    obtain ⟨d', hd', hx'⟩ := hx
    unfold dateRowsFor at hx'
    by_cases ht : 0 < dayTotal (filteredDF df oh) d'
    · rw [if_pos ht] at hx'
      rw [List.mem_singleton] at hx'
      subst hx'
      have hdd : d' = d := hxd
      subst hdd
      exact ⟨hd', ht⟩
    · rw [if_neg ht] at hx'
      cases hx'
  · rintro ⟨hd, ht⟩
    refine ⟨⟨d, dayRec (filteredDF df oh) d / dayTotal (filteredDF df oh) d * 100,
      dayRec (filteredDF df oh) d, dayGen (filteredDF df oh) d, dayFood (filteredDF df oh) d,
      dayTotal (filteredDF df oh) d⟩, ?_, rfl⟩
    rw [List.mem_flatMap]
    refine ⟨d, hd, ?_⟩
    unfold dateRowsFor
    rw [if_pos ht]
    exact List.mem_singleton.mpr rfl

/-- C10: the per-date composition table contains exactly the service dates
whose recognized-category (recyclable, general, food) weights sum to a
strictly positive total; a date all of whose positive-weight rows carry
unrecognized waste-type labels produces no row and is silently absent from
the trend output — as witnessed by the `"Scrap Metal"`-only date 5. -/
theorem C10_daily_table_dates :
    (∀ (df : List Row) (oh : Option String) (d : Nat),
      d ∈ (analyze_recycling df oh).daily_df.map DateRow.date ↔ 0 < spec_dateTotal df oh d) ∧
    (1 : Nat) ∈ (analyze_recycling scrapRows none).daily_df.map DateRow.date ∧
    (5 : Nat) ∉ (analyze_recycling scrapRows none).daily_df.map DateRow.date := by
  refine ⟨fun df oh d => ?_, ?_, ?_⟩
  · show d ∈ (daily_df_of df oh).map DateRow.date ↔ _
    rw [mem_daily_df]
    unfold spec_dateTotal
    rw [← dayTotal_eq]
    constructor
    · rintro ⟨-, hpos⟩
      exact hpos
    · intro hpos
      refine ⟨?_, hpos⟩
      rw [mem_dates_of]
      by_contra hne
      push_neg at hne
      have h0 : (filteredDF df oh).filter
          (fun r => recognizedType r.wasteType && decide (r.serviceDate = d)) = [] := by
        rw [List.filter_eq_nil_iff]
        intro r hr
        rw [Bool.and_eq_true, decide_eq_true_eq]
        rintro ⟨-, hrd⟩
        exact hne r hr hrd
      rw [dayTotal_eq, h0] at hpos
      simp [colSum] at hpos
  · with_unfolding_all decide
  · with_unfolding_all decide
